import Mathlib

/-!
Verification of the noro browser-extension capture-and-submit pipeline.

The definitions below are a shallow embedding of the TypeScript sources
`extension/src/awsService.ts` and `extension/src/background.ts`:

* chrome storage values are passed explicitly as Lean values;
* JS numbers holding timestamps and counters become `Int`;
* JS `x || d` defaulting on possibly-missing storage fields becomes `jsOr`
  over `Option Int` (a stored `0` is falsy, hence also replaced by `d`);
* functions that read storage, compute, and write storage become pure
  functions from the read values to the written values;
* fallible network calls are parametrized by an explicit outcome value.
-/

namespace Noro

/-- JS `v || d` over a possibly-absent numeric storage field: a missing field
or a stored `0` (both falsy) yield the default `d`. -/
def jsOr (v : Option Int) (d : Int) : Int :=
  match v with
  | some x => if x = 0 then d else x
  | none => d

/-! ## Rate limiter (`awsService.ts`, `shouldSubmitContext` / `updateRateLimitCounters`)

The persisted rate-limit record: storage keys `last_aws_submission`,
`aws_requests_minute`, `aws_requests_hour`, `aws_minute_start`,
`aws_hour_start`.  `none` models an absent key. -/

structure RateLimitState where
  last_aws_submission : Option Int
  aws_requests_minute : Option Int
  aws_requests_hour : Option Int
  aws_minute_start : Option Int
  aws_hour_start : Option Int
  deriving DecidableEq

/-- Constant `RATE_LIMITS.MAX_REQUESTS_PER_MINUTE`. -/
def MAX_REQUESTS_PER_MINUTE : Int := 5

/-- Constant `RATE_LIMITS.MAX_REQUESTS_PER_HOUR`. -/
def MAX_REQUESTS_PER_HOUR : Int := 20

/-- Constant `RATE_LIMITS.MIN_INTERVAL_MS`. -/
def MIN_INTERVAL_MS : Int := 12000

/-- The initially empty rate-limit storage (no key has ever been written). -/
def rlInit : RateLimitState := ⟨none, none, none, none, none⟩

/-- Function `AWSAPIService.shouldSubmitContext`, as a pure function of the current
time `now` (`Date.now()`) and the persisted state.  Mirrors the source line
by line: minimum-interval check first, then the logical (non-persisted)
window resets, then the per-minute and per-hour counter checks. -/
def shouldSubmitContext (now : Int) (s : RateLimitState) : Bool :=
  let lastSubmission := jsOr s.last_aws_submission 0
  let minuteStart := jsOr s.aws_minute_start now
  let hourStart := jsOr s.aws_hour_start now
  if now - lastSubmission < MIN_INTERVAL_MS then false
  else
    let requestsThisMinute := jsOr s.aws_requests_minute 0
    let requestsThisHour := jsOr s.aws_requests_hour 0
    let requestsThisMinute := if now - minuteStart ≥ 60000 then 0 else requestsThisMinute
    let requestsThisHour := if now - hourStart ≥ 3600000 then 0 else requestsThisHour
    if requestsThisMinute ≥ MAX_REQUESTS_PER_MINUTE then false
    else if requestsThisHour ≥ MAX_REQUESTS_PER_HOUR then false
    else true

/-- Function `AWSAPIService.updateRateLimitCounters`: the read-modify-write performed
after a successful submission, returning the state written back. -/
def updateRateLimitCounters (now : Int) (s : RateLimitState) : RateLimitState :=
  let minuteStart := jsOr s.aws_minute_start now
  let hourStart := jsOr s.aws_hour_start now
  let requestsThisMinute := jsOr s.aws_requests_minute 0
  let requestsThisHour := jsOr s.aws_requests_hour 0
  let requestsThisMinute := if now - minuteStart ≥ 60000 then 0 else requestsThisMinute
  let requestsThisHour := if now - hourStart ≥ 3600000 then 0 else requestsThisHour
  { last_aws_submission := some now
    aws_requests_minute := some (requestsThisMinute + 1)
    aws_requests_hour := some (requestsThisHour + 1)
    aws_minute_start := some (if now - minuteStart ≥ 60000 then now else minuteStart)
    aws_hour_start := some (if now - hourStart ≥ 3600000 then now else hourStart) }

/-- One admission attempt at time `t`: the caller checks
`shouldSubmitContext` and, exactly when it allows, performs the submission
and runs `updateRateLimitCounters` (check and update taken as one atomic
step, as the spec's admission model assumes). -/
def rateStep (s : RateLimitState) (t : Int) : RateLimitState × Bool :=
  if shouldSubmitContext t s then (updateRateLimitCounters t s, true) else (s, false)

/-- Final persisted state after a sequence of admission attempts. -/
def rateRunState : RateLimitState → List Int → RateLimitState
  | s, [] => s
  | s, t :: tr => rateRunState (rateStep s t).1 tr

/-- The attempt times that were admitted, in order. -/
def rateAdmitted : RateLimitState → List Int → List Int
  | _, [] => []
  | s, t :: tr =>
    if shouldSubmitContext t s then t :: rateAdmitted (updateRateLimitCounters t s) tr
    else rateAdmitted s tr

/-- An attempt sequence that straddles the persisted hour-window reset:
one submission establishes the hour window, nineteen more run at the
12-second minimum cadence just before the window's 3600-second mark, and
two more run right after it (where the hour counter is logically reset). -/
def c1Trace : List Int :=
  [1000000,
   4372000, 4384000, 4396000, 4408000, 4420000, 4432000, 4444000, 4456000,
   4468000, 4480000, 4492000, 4504000, 4516000, 4528000, 4540000, 4552000,
   4564000, 4576000, 4588000,
   4600000, 4612000]


/-! ### Rate-limiter lemmas -/

lemma jsOr_some_of_pos {t : Int} (ht : 0 < t) : jsOr (some t) 0 = t := by
  simp [jsOr, ht.ne']

lemma shouldSubmit_last_le {now : Int} {s : RateLimitState}
    (h : shouldSubmitContext now s = true) :
    jsOr s.last_aws_submission 0 + MIN_INTERVAL_MS ≤ now := by
  by_cases hc : now - jsOr s.last_aws_submission 0 < MIN_INTERVAL_MS
  · simp [shouldSubmitContext, hc] at h
  · push_neg at hc; linarith

lemma shouldSubmit_hour_lt {now : Int} {s : RateLimitState}
    (h : shouldSubmitContext now s = true) :
    (if now - jsOr s.aws_hour_start now ≥ 3600000 then 0 else jsOr s.aws_requests_hour 0)
      < MAX_REQUESTS_PER_HOUR := by
  by_cases hh : (if now - jsOr s.aws_hour_start now ≥ 3600000 then 0
      else jsOr s.aws_requests_hour 0) ≥ MAX_REQUESTS_PER_HOUR
  · simp [shouldSubmitContext, hh] at h
  · push_neg at hh; exact hh

lemma rateAdmitted_chain :
    ∀ (tr : List Int) (s : RateLimitState), 0 ≤ jsOr s.last_aws_submission 0 →
      List.Chain' (fun a b => a + MIN_INTERVAL_MS ≤ b) (rateAdmitted s tr) ∧
      ∀ x ∈ rateAdmitted s tr, jsOr s.last_aws_submission 0 + MIN_INTERVAL_MS ≤ x := by
  intro tr
  induction tr with
  | nil => intro s _; simp [rateAdmitted]
  | cons t tr ih =>
    intro s hs
    have hM : (0:Int) < MIN_INTERVAL_MS := by norm_num [MIN_INTERVAL_MS]
    by_cases h : shouldSubmitContext t s = true
    · have hlast := shouldSubmit_last_le h
      have ht : 0 < t := by linarith
      have hup : jsOr (updateRateLimitCounters t s).last_aws_submission 0 = t := by
        simp only [updateRateLimitCounters]
        exact jsOr_some_of_pos ht
      obtain ⟨hc, hall⟩ := ih (updateRateLimitCounters t s) (by rw [hup]; exact ht.le)
      rw [hup] at hall
      simp only [rateAdmitted, h, if_true]
      refine ⟨List.chain'_cons'.mpr ⟨?_, hc⟩, ?_⟩
      · intro y hy
        have : y ∈ rateAdmitted (updateRateLimitCounters t s) tr := by
          cases hmem : rateAdmitted (updateRateLimitCounters t s) tr with
          | nil => simp [hmem] at hy
          | cons a l => simp [hmem] at hy; simp [hmem, hy]
        have := hall y this
        linarith
      · intro x hx
        rcases List.mem_cons.mp hx with rfl | hx
        · linarith
        · have := hall x hx; linarith
    · simp only [rateAdmitted, h, if_false]
      exact ih s hs

lemma sep_all_of_chain {d : Int} (hd : 0 ≤ d) :
    ∀ {l : List Int} {a : Int}, List.Chain' (fun x y => x + d ≤ y) (a :: l) →
      ∀ b ∈ l, a + d ≤ b := by
  intro l
  induction l with
  | nil => intro a _ b hb; simp at hb
  | cons c l ih =>
    intro a h b hb
    have hac : a + d ≤ c := (List.chain'_cons.mp h).1
    rcases List.mem_cons.mp hb with rfl | hb
    · exact hac
    · have := ih (List.chain'_cons.mp h).2 b hb
      linarith

lemma sep_window_count {d : Int} (hd : 0 ≤ d) :
    ∀ (l : List Int), List.Chain' (fun x y => x + d ≤ y) l →
      ∀ (k : ℕ) (lo : Int),
        l.countP (fun t => decide (lo ≤ t ∧ t < lo + (k : Int) * d)) ≤ k := by
  intro l
  induction l with
  | nil => intro _ k lo; simp [List.countP_nil]
  | cons a l ih =>
    intro h k lo
    rw [List.countP_cons]
    by_cases ha : lo ≤ a ∧ a < lo + (k : Int) * d
    · match k with
      | 0 => exfalso; push_cast at ha; omega
      | k + 1 =>
        have hall := sep_all_of_chain hd h
        have hmono : l.countP (fun t => decide (lo ≤ t ∧ t < lo + ((k+1 : ℕ) : Int) * d))
            ≤ l.countP (fun t => decide ((a + d) ≤ t ∧ t < (a + d) + (k : Int) * d)) := by
          apply List.countP_mono_left
          intro x hx hpx
          simp only [decide_eq_true_eq] at hpx ⊢
          have h1 := hall x hx
          push_cast at hpx ⊢
          constructor
          · exact h1
          · nlinarith [ha.1]
        have := ih h.tail k (a + d)
        simp only [decide_eq_true_eq, ha, and_self, if_true]
        omega
    · simp only [decide_eq_true_eq, ha, if_false]
      exact le_trans (List.countP_mono_left (fun x _ hx => hx)) (ih h.tail k lo)

lemma chain_sep_pairwise {l : List Int}
    (h : List.Chain' (fun a b => a + MIN_INTERVAL_MS ≤ b) l) :
    List.Pairwise (fun a b => a + MIN_INTERVAL_MS ≤ b) l := by
  have : IsTrans Int (fun a b => a + MIN_INTERVAL_MS ≤ b) := by
    constructor
    intro a b c hab hbc
    have : (0:Int) ≤ MIN_INTERVAL_MS := by norm_num [MIN_INTERVAL_MS]
    simp only at hab hbc ⊢
    linarith
  exact List.chain'_iff_pairwise.mp h

def hourCount (s : RateLimitState) : Int := jsOr s.aws_requests_hour 0

lemma hour_inv :
    ∀ (tr : List Int) (s : RateLimitState),
      0 ≤ hourCount s → hourCount s ≤ MAX_REQUESTS_PER_HOUR →
      0 ≤ hourCount (rateRunState s tr) ∧
        hourCount (rateRunState s tr) ≤ MAX_REQUESTS_PER_HOUR := by
  intro tr
  induction tr with
  | nil => intro s h0 h1; exact ⟨h0, h1⟩
  | cons t tr ih =>
    intro s h0 h1
    have h0' : 0 ≤ jsOr s.aws_requests_hour 0 := by simpa [hourCount] using h0
    by_cases h : shouldSubmitContext t s = true
    · have hlt := shouldSubmit_hour_lt h
      have heff0 : 0 ≤ (if t - jsOr s.aws_hour_start t ≥ 3600000 then 0
          else jsOr s.aws_requests_hour 0) := by
        split
        · exact le_refl 0
        · exact h0'
      have hcnt : hourCount (updateRateLimitCounters t s) =
          (if t - jsOr s.aws_hour_start t ≥ 3600000 then 0
            else jsOr s.aws_requests_hour 0) + 1 := by
        simp only [hourCount, updateRateLimitCounters]
        exact jsOr_some_of_pos (by omega)
      have hstep : rateRunState s (t :: tr) = rateRunState (updateRateLimitCounters t s) tr := by
        simp [rateRunState, rateStep, h]
      rw [hstep]
      exact ih (updateRateLimitCounters t s) (by omega) (by omega)
    · have hstep : rateRunState s (t :: tr) = rateRunState s tr := by
        simp [rateRunState, rateStep, h]
      rw [hstep]
      exact ih s h0 h1

/-- C1 counterexample: the attempt times of `c1Trace` are nondecreasing and
every attempt is admitted, yet 21 admissions fall inside the rolling
3600-second span starting at time 4372000 — the code enforces the 20-per-hour
cap against a persisted fixed hour window, not a rolling one. -/
theorem C1_counterexample :
    List.Chain' (· ≤ ·) c1Trace ∧
    ¬ ((rateAdmitted rlInit c1Trace).countP
        (fun t => decide (4372000 ≤ t ∧ t < 4372000 + 3600000)) ≤ 20) := by
  constructor
  · norm_num [c1Trace, List.chain'_cons]
  · decide

/-- C1 (amended): starting from empty rate-limit storage, for every sequence
of atomic admission-check/counter-update steps: (a) any two admitted
submissions are at least `MIN_INTERVAL_MS` = 12 s apart; (b) at most 5
admissions fall within any rolling 60-second span `[lo, lo+60000)`; (c) the
persisted hour counter never exceeds `MAX_REQUESTS_PER_HOUR` = 20 — the hour
limit is per tracked hour window, not per rolling 3600-second span. -/
theorem C1_rate_limiter_guarantees (tr : List Int) :
    List.Pairwise (fun a b => a + MIN_INTERVAL_MS ≤ b) (rateAdmitted rlInit tr) ∧
    (∀ lo : Int,
      (rateAdmitted rlInit tr).countP (fun t => decide (lo ≤ t ∧ t < lo + 60000)) ≤ 5) ∧
    hourCount (rateRunState rlInit tr) ≤ MAX_REQUESTS_PER_HOUR := by
  have hM : (0:Int) ≤ MIN_INTERVAL_MS := by norm_num [MIN_INTERVAL_MS]
  have hinit : 0 ≤ jsOr rlInit.last_aws_submission 0 := by simp [rlInit, jsOr]
  obtain ⟨hc, -⟩ := rateAdmitted_chain tr rlInit hinit
  refine ⟨chain_sep_pairwise hc, ?_, ?_⟩
  · intro lo
    have hc' : List.Chain' (fun a b => a + (12000:Int) ≤ b) (rateAdmitted rlInit tr) := by
      simpa [MIN_INTERVAL_MS] using hc
    have := sep_window_count (by norm_num) (rateAdmitted rlInit tr) hc' 5 lo
    simpa using this
  · exact (hour_inv tr rlInit (by simp [hourCount, rlInit, jsOr])
      (by simp [hourCount, rlInit, jsOr, MAX_REQUESTS_PER_HOUR])).2


/-! ## Single-flight capture guard (`background.ts`)

The extension's event handlers run single-threaded and cooperatively: a
handler executes synchronously until its next `await`, where other handlers
may interleave.  A handler is modelled as a list of atomic instructions with
`yieldPt` marking each `await`; a scheduler step runs one task up to and
including its next `yieldPt`.  The module-level `isCapturing` flag is
`flag`; `inFlight` counts capture cycles currently executing
(`captureWorkspace` entered but not yet returned) and `maxInFlight` records
its high-water mark. -/

inductive CapInstr
  /-- A flag test that drops the task when `isCapturing` is true
  (`!isCapturing` in the idle listener and the `manualCapture` handler). -/
  | checkFlag
  /-- Statement `isCapturing = true` (first statement of `captureWorkspace`). -/
  | setFlag
  /-- Statement `isCapturing = false` (last statement of `captureWorkspace`). -/
  | clearFlag
  /-- A capture cycle becomes in flight. -/
  | beginCycle
  /-- The in-flight capture cycle completes. -/
  | endCycle
  /-- An `await`: the task suspends here and other handlers may run. -/
  | yieldPt
  deriving DecidableEq

structure CapState where
  flag : Bool
  inFlight : Nat
  maxInFlight : Nat
  deriving DecidableEq

def capInit : CapState := ⟨false, 0, 0⟩

/-- Run one task synchronously up to and including its next `yieldPt` (or to
completion), returning the new state and the task's remaining program. -/
def runToYield : CapState → List CapInstr → CapState × List CapInstr
  | s, [] => (s, [])
  | s, .checkFlag :: r => if s.flag then (s, []) else runToYield s r
  | s, .setFlag :: r => runToYield { s with flag := true } r
  | s, .clearFlag :: r => runToYield { s with flag := false } r
  | s, .beginCycle :: r =>
      runToYield { s with inFlight := s.inFlight + 1,
                          maxInFlight := max s.maxInFlight (s.inFlight + 1) } r
  | s, .endCycle :: r => runToYield { s with inFlight := s.inFlight - 1 } r
  | s, .yieldPt :: r => (s, r)

/-- The body of `captureWorkspace` once the flag is set: `k` intermediate
`await`s (`chrome.windows.getAll`, per-tab `executeScript`, `storage.set`,
the AWS submission, ...) and then `isCapturing = false` and return. -/
def captureBody (k : Nat) : List CapInstr :=
  List.replicate k .yieldPt ++ [.clearFlag, .endCycle]

/-- The `manualCapture` message path: the handler reaches
`if (!isCapturing)` with no prior `await`, and `captureWorkspace` sets the
flag synchronously after the check. -/
def manualTask (k : Nat) : List CapInstr :=
  .checkFlag :: .setFlag :: .beginCycle :: captureBody k

/-- The idle-transition path: `await chrome.storage.sync.get` before the
flag test, then `await updateExtensionBadge` and `await sendCaptureStatus`
between the test and the `isCapturing = true` inside `captureWorkspace`. -/
def idleTask (k : Nat) : List CapInstr :=
  .yieldPt :: .checkFlag :: .yieldPt :: .yieldPt :: .setFlag :: .beginCycle :: captureBody k

/-- Scheduler: run task `i` (if it exists) up to its next suspension. -/
def schedStep : CapState → List (List CapInstr) → Nat → CapState × List (List CapInstr)
  | s, [], _ => (s, [])
  | s, p :: tl, 0 => ((runToYield s p).1, (runToYield s p).2 :: tl)
  | s, p :: tl, n + 1 =>
      ((schedStep s tl n).1, p :: (schedStep s tl n).2)

/-- Run a whole schedule (a list of task indices). -/
def runSched : CapState → List (List CapInstr) → List Nat → CapState × List (List CapInstr)
  | s, tl, [] => (s, tl)
  | s, tl, i :: sch => runSched (schedStep s tl i).1 (schedStep s tl i).2 sch

/-! ### Shape invariants for the guard -/

/-- Recognizes the remaining program of a task that is inside its capture
cycle: some `yieldPt`s followed by `clearFlag, endCycle`. -/
def tailShape : List CapInstr → Bool
  | .yieldPt :: r => tailShape r
  | [.clearFlag, .endCycle] => true
  | _ => false

/-- Recognizes a task that has not yet passed its flag check, whose check
and set are separated by no suspension. -/
def preShape : List CapInstr → Bool
  | .checkFlag :: .setFlag :: .beginCycle :: r => tailShape r
  | _ => false

/-- Number of tasks currently inside their capture cycle. -/
def countB (tl : List (List CapInstr)) : Nat := tl.countP tailShape

lemma tailShape_cases {p : List CapInstr} (h : tailShape p = true) :
    (∃ r, p = .yieldPt :: r ∧ tailShape r = true) ∨ p = [.clearFlag, .endCycle] := by
  cases p with
  | nil => simp [tailShape] at h
  | cons i r =>
    cases i with
    | yieldPt => exact Or.inl ⟨r, rfl, by simpa [tailShape] using h⟩
    | clearFlag =>
      cases r with
      | nil => simp [tailShape] at h
      | cons j r' =>
        cases j with
        | endCycle =>
          cases r' with
          | nil => exact Or.inr rfl
          | cons a b => simp [tailShape] at h
        | checkFlag => simp [tailShape] at h
        | setFlag => simp [tailShape] at h
        | clearFlag => simp [tailShape] at h
        | beginCycle => simp [tailShape] at h
        | yieldPt => simp [tailShape] at h
    | checkFlag => simp [tailShape] at h
    | setFlag => simp [tailShape] at h
    | beginCycle => simp [tailShape] at h
    | endCycle => simp [tailShape] at h

lemma preShape_cases {p : List CapInstr} (h : preShape p = true) :
    ∃ r, p = .checkFlag :: .setFlag :: .beginCycle :: r ∧ tailShape r = true := by
  cases p with
  | nil => simp [preShape] at h
  | cons i r =>
    cases i <;> try simp [preShape] at h
    cases r with
    | nil => simp [preShape] at h
    | cons j r' =>
      cases j <;> try simp [preShape] at h
      cases r' with
      | nil => simp [preShape] at h
      | cons l r'' =>
        cases l <;> try simp [preShape] at h
        exact ⟨r'', rfl, by simpa [preShape] using h⟩

lemma tailShape_false_of_pre {p : List CapInstr} (h : preShape p = true) :
    tailShape p = false := by
  obtain ⟨r, rfl, -⟩ := preShape_cases h
  simp [tailShape]

lemma runToYield_tail {p : List CapInstr} (h : tailShape p = true) (s : CapState) :
    (∃ r, runToYield s p = (s, r) ∧ tailShape r = true) ∨
    runToYield s p = ({ s with flag := false, inFlight := s.inFlight - 1 }, []) := by
  rcases tailShape_cases h with ⟨r, rfl, hr⟩ | rfl
  · exact Or.inl ⟨r, by simp [runToYield], hr⟩
  · right
    simp [runToYield]

lemma runToYield_pre_block {p : List CapInstr} (h : preShape p = true) (s : CapState)
    (hf : s.flag = false) :
    (∃ r, runToYield s p =
        ({ s with flag := true, inFlight := s.inFlight + 1,
                  maxInFlight := max s.maxInFlight (s.inFlight + 1) }, r) ∧
        tailShape r = true) ∨
    runToYield s p =
        ({ s with maxInFlight := max s.maxInFlight (s.inFlight + 1) }, []) := by
  obtain ⟨r, rfl, hr⟩ := preShape_cases h
  have hstep : runToYield s (.checkFlag :: .setFlag :: .beginCycle :: r) =
      runToYield { s with flag := true, inFlight := s.inFlight + 1,
                          maxInFlight := max s.maxInFlight (s.inFlight + 1) } r := by
    simp [runToYield, hf]
  rcases tailShape_cases hr with ⟨r', rfl, hr'⟩ | rfl
  · exact Or.inl ⟨r', by rw [hstep]; simp [runToYield], hr'⟩
  · right
    rw [hstep]
    simp [runToYield, hf]

lemma runToYield_pre_drop {p : List CapInstr} (h : preShape p = true) (s : CapState)
    (hf : s.flag = true) : runToYield s p = (s, []) := by
  obtain ⟨r, rfl, -⟩ := preShape_cases h
  simp [runToYield, hf]

/-- Configuration invariant for schedules over guarded tasks, generalized by
a context count `c` of in-cycle tasks outside the listed suffix: the flag is
set exactly while one task is inside its capture cycle, `inFlight` equals
the number of such tasks, and both never exceed one. -/
def CapInvC (c : Nat) (s : CapState) (tl : List (List CapInstr)) : Prop :=
  (∀ p ∈ tl, preShape p = true ∨ tailShape p = true ∨ p = []) ∧
  s.inFlight = c + countB tl ∧ c + countB tl ≤ 1 ∧
  (if s.flag then 1 else 0) = c + countB tl ∧ s.maxInFlight ≤ 1

lemma countB_cons_false {p : List CapInstr} (tl : List (List CapInstr))
    (h : tailShape p = false) : countB (p :: tl) = countB tl := by
  simp [countB, List.countP_cons, h]

lemma countB_cons_true {p : List CapInstr} (tl : List (List CapInstr))
    (h : tailShape p = true) : countB (p :: tl) = countB tl + 1 := by
  simp [countB, List.countP_cons, h]

lemma schedStep_inv :
    ∀ (tl : List (List CapInstr)) (i : Nat) (s : CapState) (c : Nat),
      CapInvC c s tl → CapInvC c (schedStep s tl i).1 (schedStep s tl i).2 := by
  intro tl
  induction tl with
  | nil =>
    intro i s c h
    simpa [schedStep] using h
  | cons p tl ih =>
    intro i s c h
    obtain ⟨hshape, hin, hle, hflag, hmax⟩ := h
    have hshape' : ∀ q ∈ tl, preShape q = true ∨ tailShape q = true ∨ q = [] :=
      fun q hq => hshape q (List.mem_cons_of_mem _ hq)
    match i with
    | Nat.succ n =>
      have hcc : countB (p :: tl) = countB tl + (if tailShape p then 1 else 0) := by
        simp [countB, List.countP_cons]
      rw [hcc] at hin hle hflag
      have h' : CapInvC (c + (if tailShape p then 1 else 0)) s tl :=
        ⟨hshape', by omega, by omega, by omega, hmax⟩
      obtain ⟨rs, rin, rle, rflag, rmax⟩ := ih n s _ h'
      simp only [schedStep]
      have hcc2 : countB (p :: (schedStep s tl n).2) =
          countB (schedStep s tl n).2 + (if tailShape p then 1 else 0) := by
        simp [countB, List.countP_cons]
      refine ⟨?_, ?_, ?_, ?_, rmax⟩
      · intro q hq
        rcases List.mem_cons.mp hq with rfl | hq
        · exact hshape q (List.mem_cons_self _ _)
        · exact rs q hq
      · rw [hcc2]; omega
      · rw [hcc2]; omega
      · rw [hcc2]; omega
    | Nat.zero =>
      simp only [schedStep]
      rcases hshape p (List.mem_cons_self _ _) with hpre | htail | rfl
      · have hb0 : tailShape p = false := tailShape_false_of_pre hpre
        rw [countB_cons_false tl hb0] at hin hle hflag
        cases hf : s.flag with
        | true =>
          rw [runToYield_pre_drop hpre s hf]
          refine ⟨?_, ?_, ?_, ?_, hmax⟩
          · intro q hq
            rcases List.mem_cons.mp hq with rfl | hq
            · exact Or.inr (Or.inr rfl)
            · exact hshape q (List.mem_cons_of_mem _ hq)
          · rw [countB_cons_false tl (by rfl)]; exact hin
          · rw [countB_cons_false tl (by rfl)]; exact hle
          · rw [countB_cons_false tl (by rfl)]; exact hflag
        | false =>
          have h0 : c + countB tl = 0 := by
            rw [hf] at hflag
            simpa using hflag.symm
          rcases runToYield_pre_block hpre s hf with ⟨r, heq, hr⟩ | heq
          · rw [heq]
            refine ⟨?_, ?_, ?_, ?_, ?_⟩
            · intro q hq
              rcases List.mem_cons.mp hq with rfl | hq
              · exact Or.inr (Or.inl hr)
              · exact hshape q (List.mem_cons_of_mem _ hq)
            · dsimp only; rw [countB_cons_true tl hr]; omega
            · rw [countB_cons_true tl hr]; omega
            · dsimp only; rw [countB_cons_true tl hr]; simp; omega
            · dsimp only; omega
          · rw [heq]
            refine ⟨?_, ?_, ?_, ?_, ?_⟩
            · intro q hq
              rcases List.mem_cons.mp hq with rfl | hq
              · exact Or.inr (Or.inr rfl)
              · exact hshape q (List.mem_cons_of_mem _ hq)
            · dsimp only; rw [countB_cons_false tl (by rfl)]; exact hin
            · rw [countB_cons_false tl (by rfl)]; exact hle
            · dsimp only; rw [countB_cons_false tl (by rfl)]; exact hflag
            · dsimp only; omega
      · rw [countB_cons_true tl htail] at hin hle hflag
        rcases runToYield_tail htail s with ⟨r, heq, hr⟩ | heq
        · rw [heq]
          refine ⟨?_, ?_, ?_, ?_, hmax⟩
          · intro q hq
            rcases List.mem_cons.mp hq with rfl | hq
            · exact Or.inr (Or.inl hr)
            · exact hshape q (List.mem_cons_of_mem _ hq)
          · rw [countB_cons_true tl hr]; exact hin
          · rw [countB_cons_true tl hr]; exact hle
          · rw [countB_cons_true tl hr]; exact hflag
        · rw [heq]
          refine ⟨?_, ?_, ?_, ?_, ?_⟩
          · intro q hq
            rcases List.mem_cons.mp hq with rfl | hq
            · exact Or.inr (Or.inr rfl)
            · exact hshape q (List.mem_cons_of_mem _ hq)
          · dsimp only; rw [countB_cons_false tl (by rfl)]; omega
          · rw [countB_cons_false tl (by rfl)]; omega
          · dsimp only; rw [countB_cons_false tl (by rfl)]; simp; omega
          · dsimp only; exact hmax
      · simp only [runToYield]
        exact ⟨hshape, hin, hle, hflag, hmax⟩

lemma runSched_inv :
    ∀ (sch : List Nat) (s : CapState) (tl : List (List CapInstr)) (c : Nat),
      CapInvC c s tl → CapInvC c (runSched s tl sch).1 (runSched s tl sch).2 := by
  intro sch
  induction sch with
  | nil => intro s tl c h; exact h
  | cons i sch ih =>
    intro s tl c h
    simp only [runSched]
    exact ih _ _ _ (schedStep_inv tl i s c h)

lemma tailShape_captureBody (k : Nat) : tailShape (captureBody k) = true := by
  induction k with
  | zero => rfl
  | succ k ih =>
    simpa [captureBody, List.replicate_succ, tailShape] using ih

lemma preShape_manualTask (k : Nat) : preShape (manualTask k) = true := by
  simpa [manualTask, preShape] using tailShape_captureBody k

lemma countB_manual (ks : List Nat) : countB (ks.map manualTask) = 0 := by
  refine List.countP_eq_zero.mpr ?_
  intro q hq
  obtain ⟨k, -, rfl⟩ := List.mem_map.mp hq
  simp [manualTask, tailShape]

/-- C2 counterexample: an idle transition (which `await`s the settings read
before its flag check, and the badge and status updates after it),
interleaved with a manual trigger, puts two capture cycles in flight: after
the schedule `[0, 0, 1, 0, 0]` over `[idleTask 1, manualTask 1]` the
high-water mark of concurrently running capture cycles is 2. -/
theorem C2_counterexample :
    ¬ ((runSched capInit [idleTask 1, manualTask 1] [0, 0, 1, 0, 0]).1.maxInFlight ≤ 1) := by
  decide

/-- C2 (amended): the single-flight guarantee holds only for triggers whose
flag check and flag set are separated by no suspension (the manual path):
for any number of manual triggers and any schedule, at most one capture
cycle is ever in flight; and any trigger whose flag check runs while the
flag is true is dropped without effect, not queued.  The idle path awaits
between check and set, so it is not covered (see the counterexample). -/
theorem C2_single_flight_guard :
    (∀ (ks : List Nat) (sch : List Nat),
      (runSched capInit (ks.map manualTask) sch).1.maxInFlight ≤ 1) ∧
    (∀ (s : CapState) (p : List CapInstr), preShape p = true → s.flag = true →
      runToYield s p = (s, [])) := by
  constructor
  · intro ks sch
    have hinit : CapInvC 0 capInit (ks.map manualTask) := by
      refine ⟨?_, ?_, ?_, ?_, ?_⟩
      · intro q hq
        obtain ⟨k, -, rfl⟩ := List.mem_map.mp hq
        exact Or.inl (preShape_manualTask k)
      · simp [capInit, countB_manual ks]
      · simp [countB_manual ks]
      · simp [capInit, countB_manual ks]
      · simp [capInit]
    exact (runSched_inv sch capInit _ 0 hinit).2.2.2.2
  · exact fun s p hp hf => runToYield_pre_drop hp s hf

/-- Concrete instance of `C2_single_flight_guard`: a trigger arriving with
the flag set is dropped, and a two-manual-trigger schedule never exceeds
one in-flight cycle. -/
theorem C2_single_flight_guard_witness :
    runToYield ⟨true, 1, 1⟩ (manualTask 2) = (⟨true, 1, 1⟩, []) ∧
    (runSched capInit [manualTask 1, manualTask 2] [0, 1, 0, 0, 1, 1]).1.maxInFlight ≤ 1 := by
  constructor
  · exact C2_single_flight_guard.2 ⟨true, 1, 1⟩ (manualTask 2) (by decide) rfl
  · exact C2_single_flight_guard.1 [1, 2] [0, 1, 0, 0, 1, 1]


/-! ## Workspace capture (`background.ts`, `captureWorkspace`)

The data model of `types.ts` (`PageSnapshot`, `TabSnapshot`,
`WindowSnapshot`, `WorkspaceCapture`), plus the chrome environment the
capture loop consumes.  The per-page-type `data` payloads
(`GoogleDocsData`, `ArticleData`, ...) are produced by the external
extraction routine; the pipeline verified here inspects only their
`screenshot` field, so `PageData` records exactly that field. -/

/-- The `screenshot` field of a per-page-type `data` record: JS `undefined`
(the field is absent, as in `ArticleData`/`SearchData`), JS `null` (not yet
captured), or a storage key string. -/
inductive ScreenshotField
  | absent
  | nullVal
  | key (s : String)
  deriving DecidableEq

/-- A per-page-type structured payload; only its `screenshot` field is ever
read by the capture, cleanup, and submission paths. -/
structure PageData where
  screenshot : ScreenshotField
  deriving DecidableEq

structure PageSnapshot where
  url : String
  title : String
  timestamp : Int
  type : String
  data : Option PageData
  deriving DecidableEq

structure TabSnapshot where
  tabId : Int
  isActive : Bool
  snapshot : PageSnapshot
  deriving DecidableEq

structure WindowSnapshot where
  windowId : Int
  activeTabId : Int
  tabs : List TabSnapshot
  deriving DecidableEq

structure WorkspaceCapture where
  timestamp : Int
  windows : List WindowSnapshot
  deriving DecidableEq

/-- A browser tab as enumerated by `chrome.windows.getAll({populate: true})`,
together with the outcome of the external per-tab extraction routine
(`chrome.scripting.executeScript` running `capturePageSnapshot`): `none`
models a thrown error or a missing `result.result`. -/
structure ChromeTab where
  id : Option Int
  url : Option String
  active : Bool
  extract : Option PageSnapshot
  deriving DecidableEq

/-- A browser window, with the outcome of `chrome.tabs.captureVisibleTab`
on it: `none` models a thrown error. -/
structure ChromeWindow where
  id : Int
  tabs : List ChromeTab
  shot : Option String
  deriving DecidableEq

/-- JS `String.prototype.startsWith`, as a prefix test on the character
sequences. -/
def jsStartsWith (s p : String) : Bool := p.data.isPrefixOf s.data

/-- The skip test `if (!tab.id || !tab.url?.startsWith("http")) continue`,
negated: a tab is processed only when its id is truthy (present and
nonzero) and its URL is a string starting with `"http"`. -/
def eligTab (t : ChromeTab) : Bool :=
  (match t.id with
   | some i => i != 0
   | none => false) &&
  (match t.url with
   | some u => jsStartsWith u "http"
   | none => false)

/-- The tab id used for a captured tab (`tab.id`; eligibility guarantees it
is present). -/
def jsTabId (t : ChromeTab) : Int := t.id.getD 0

/-- The per-tab loop of `captureWorkspace`: threads the window's
`activeTabId` (initialized `-1`, overwritten whenever a successfully
captured tab is the active one) and appends captured `TabSnapshot`s in
order.  Ineligible tabs and tabs whose extraction throws or returns no
result are skipped; the loop itself never aborts. -/
def captureTabs : Int → List TabSnapshot → List ChromeTab → Int × List TabSnapshot
  | aid, acc, [] => (aid, acc)
  | aid, acc, tab :: rest =>
    if eligTab tab then
      match tab.extract with
      | some snap =>
        captureTabs (if tab.active then jsTabId tab else aid)
          (acc ++ [{ tabId := jsTabId tab, isActive := tab.active, snapshot := snap }]) rest
      | none => captureTabs aid acc rest
    else captureTabs aid acc rest

/-- Replace the first entry satisfying `isActive` — the tab located by
`windowSnapshot.tabs.find((tab) => tab.isActive)` and then mutated in
place by the source. -/
def updateFirstActive (f : TabSnapshot → TabSnapshot) : List TabSnapshot → List TabSnapshot
  | [] => []
  | t :: ts => if t.isActive then f t :: ts else t :: updateFirstActive f ts

/-- Assignment `activeTab.snapshot.data.screenshot = filename`. -/
def setTabScreenshot (t : TabSnapshot) (fname : String) : TabSnapshot :=
  { t with snapshot := { t.snapshot with
      data := match t.snapshot.data with
        | some d => some { d with screenshot := .key fname }
        | none => none } }

/-- The screenshot block inside the per-window loop: when the captured
active tab's `data.screenshot === null`, attempt `captureVisibleTab`; on a
truthy image, persist it under `img_<timestamp>_<tabId>` and store that key
into the active tab's data.  Returns the (possibly updated) tab list and
the persisted `(key, image)` writes. -/
def windowShot (ts2 : Int) (w : ChromeWindow) (tabs : List TabSnapshot) :
    List TabSnapshot × List (String × String) :=
  match tabs.find? (fun t => t.isActive) with
  | some activeTab =>
    match activeTab.snapshot.data with
    | some d =>
      match d.screenshot with
      | .nullVal =>
        match w.shot with
        | some image =>
          if image = "" then (tabs, [])
          else
            let tid := activeTab.tabId
            let filename := s!"img_{ts2}_{tid}"
            (updateFirstActive (fun t => setTabScreenshot t filename) tabs,
             [(filename, image)])
        | none => (tabs, [])
      | _ => (tabs, [])
    | none => (tabs, [])
  | none => (tabs, [])

/-- One iteration of the windows loop: the per-tab loop, then the
screenshot block. -/
def captureWindow (ts2 : Int) (w : ChromeWindow) : WindowSnapshot × List (String × String) :=
  let r := captureTabs (-1) [] w.tabs
  let p := windowShot ts2 w r.2
  ({ windowId := w.id, activeTabId := r.1, tabs := p.1 }, p.2)

/-- The windows loop: windows with no tabs are skipped outright; every
other window is processed, its screenshot writes are persisted, and its
snapshot is appended to the workspace only when it kept at least one
tab. -/
def captureWindows (ts2 : Int) :
    List ChromeWindow → List WindowSnapshot × List (String × String)
  | [] => ([], [])
  | w :: rest =>
    if w.tabs.isEmpty then captureWindows ts2 rest
    else
      let r := captureWindow ts2 w
      let q := captureWindows ts2 rest
      ((if r.1.tabs.isEmpty then [] else [r.1]) ++ q.1, r.2 ++ q.2)

/-- Function `captureWorkspace`: assembles the `WorkspaceCapture` (persisted under
`workspace_<timestamp>`) and returns it with the screenshot blobs persisted
during the cycle. -/
def captureWorkspace (ts2 : Int) (ws : List ChromeWindow) :
    WorkspaceCapture × List (String × String) :=
  let r := captureWindows ts2 ws
  ({ timestamp := ts2, windows := r.1 }, r.2)

/-- Number of eligible tabs of a window (`N` of the spec). -/
def eligCount (w : ChromeWindow) : Nat := (w.tabs.filter eligTab).length

/-- Number of eligible tabs whose extraction fails (`K` of the spec). -/
def failCount (w : ChromeWindow) : Nat :=
  (w.tabs.filter (fun t => eligTab t && t.extract.isNone)).length

/-- Number of eligible tabs whose extraction succeeds. -/
def succCount (w : ChromeWindow) : Nat :=
  (w.tabs.filter (fun t => eligTab t && t.extract.isSome)).length

/-! ### Capture lemmas -/

lemma captureTabs_length :
    ∀ (l : List ChromeTab) (aid : Int) (acc : List TabSnapshot),
      (captureTabs aid acc l).2.length =
        acc.length + (l.filter (fun t => eligTab t && t.extract.isSome)).length := by
  intro l
  induction l with
  | nil => intro aid acc; simp [captureTabs]
  | cons tab rest ih =>
    intro aid acc
    by_cases he : eligTab tab = true
    · cases hx : tab.extract with
      | some snap =>
        simp only [captureTabs, he, if_true]
        rw [hx, ih]
        simp [List.filter_cons, he, hx]
        omega
      | none =>
        simp only [captureTabs, he, if_true]
        rw [hx, ih]
        simp [List.filter_cons, he, hx]
    · have he2 : eligTab tab = false := by simpa using he
      simp only [captureTabs, he2, Bool.false_eq_true, if_false]
      rw [ih]
      simp [List.filter_cons, he2]

lemma elig_split (l : List ChromeTab) :
    (l.filter eligTab).length =
      (l.filter (fun t => eligTab t && t.extract.isSome)).length +
      (l.filter (fun t => eligTab t && t.extract.isNone)).length := by
  induction l with
  | nil => simp
  | cons tab rest ih =>
    by_cases he : eligTab tab = true
    · cases hx : tab.extract with
      | some snap => simp [List.filter_cons, he, hx]; omega
      | none => simp [List.filter_cons, he, hx]; omega
    · simp [List.filter_cons, he]
      exact ih

lemma updateFirstActive_length (f : TabSnapshot → TabSnapshot) :
    ∀ l, (updateFirstActive f l).length = l.length := by
  intro l
  induction l with
  | nil => rfl
  | cons t ts ih =>
    by_cases h : t.isActive = true
    · simp [updateFirstActive, h]
    · simp [updateFirstActive, h, ih]

lemma windowShot_fst_length (ts2 : Int) (w : ChromeWindow) (tabs : List TabSnapshot) :
    (windowShot ts2 w tabs).1.length = tabs.length := by
  unfold windowShot
  repeat' split
  all_goals simp [updateFirstActive_length]

lemma windowShot_snd_length (ts2 : Int) (w : ChromeWindow) (tabs : List TabSnapshot) :
    (windowShot ts2 w tabs).2.length ≤ 1 := by
  unfold windowShot
  repeat' split
  all_goals simp

lemma captureWindows_fst (ts2 : Int) :
    ∀ ws : List ChromeWindow, (captureWindows ts2 ws).1 =
      (ws.filter (fun v => !v.tabs.isEmpty && !(captureWindow ts2 v).1.tabs.isEmpty)).map
        (fun v => (captureWindow ts2 v).1) := by
  intro ws
  induction ws with
  | nil => simp [captureWindows]
  | cons w rest ih =>
    by_cases h1 : w.tabs.isEmpty = true
    · simp [captureWindows, h1, List.filter_cons, ih]
    · by_cases h2 : (captureWindow ts2 w).1.tabs.isEmpty = true
      · simp [captureWindows, h1, h2, List.filter_cons, ih]
      · simp [captureWindows, h1, h2, List.filter_cons, ih]

/-- C3: for any window, the per-tab loop yields exactly `N − K` tab
snapshots, where `N` counts the eligible tabs (truthy id, http(s) URL) and
`K` the eligible tabs whose extraction fails; the capture is never aborted
and the workspace keeps exactly the processed windows with at least one
captured tab, so a window with `K = N` is omitted entirely. -/
theorem C3_per_tab_fault_isolation (ts2 : Int) (w : ChromeWindow) (ws : List ChromeWindow) :
    (captureWindow ts2 w).1.tabs.length = eligCount w - failCount w ∧
    ((captureWorkspace ts2 ws).1.windows =
      (ws.filter (fun v => !v.tabs.isEmpty && !(captureWindow ts2 v).1.tabs.isEmpty)).map
        (fun v => (captureWindow ts2 v).1)) ∧
    (failCount w = eligCount w →
      (captureWindow ts2 w).1 ∉ (captureWorkspace ts2 ws).1.windows) := by
  have hlen : (captureWindow ts2 w).1.tabs.length = succCount w := by
    simp only [captureWindow]
    rw [windowShot_fst_length]
    simpa [succCount] using captureTabs_length w.tabs (-1) []
  have hsplit := elig_split w.tabs
  refine ⟨?_, ?_, ?_⟩
  · rw [hlen]
    simp only [eligCount, failCount, succCount] at *
    omega
  · exact captureWindows_fst ts2 ws
  · intro hKN hmem
    have h2 := captureWindows_fst ts2 ws
    simp only [captureWorkspace] at hmem
    rw [h2] at hmem
    obtain ⟨v, hv, heq⟩ := List.mem_map.mp hmem
    have hvne := List.of_mem_filter hv
    simp only [Bool.and_eq_true, Bool.not_eq_true'] at hvne
    have hwz : (captureWindow ts2 w).1.tabs.length = 0 := by
      rw [hlen]
      simp only [eligCount, failCount, succCount] at *
      omega
    rw [heq] at hvne
    have hnil : (captureWindow ts2 w).1.tabs = [] := List.length_eq_zero.mp hwz
    rw [hnil] at hvne
    simp at hvne

/-- A page snapshot used in concrete capture scenarios. -/
def exSnap : PageSnapshot :=
  { url := "https://a.example", title := "A", timestamp := 0, type := "article", data := none }

/-- An eligible, active tab whose extraction succeeds. -/
def exTabOk : ChromeTab :=
  { id := some 1, url := some "https://a.example", active := true, extract := some exSnap }

/-- An eligible tab whose extraction fails. -/
def exTabFail : ChromeTab :=
  { id := some 2, url := some "https://b.example", active := false, extract := none }

def exWindow : ChromeWindow := { id := 7, tabs := [exTabOk, exTabFail], shot := none }

def exWindowAllFail : ChromeWindow := { id := 8, tabs := [exTabFail], shot := none }

/-- Concrete instance of `C3_per_tab_fault_isolation`: a window with two
eligible tabs of which one fails keeps one tab; a window whose only
eligible tab fails is omitted from the workspace. -/
theorem C3_per_tab_fault_isolation_witness :
    (captureWindow 0 exWindow).1.tabs.length = eligCount exWindow - failCount exWindow ∧
    (captureWindow 0 exWindowAllFail).1 ∉
      (captureWorkspace 0 [exWindow, exWindowAllFail]).1.windows :=
  ⟨(C3_per_tab_fault_isolation 0 exWindow []).1,
   (C3_per_tab_fault_isolation 0 exWindowAllFail [exWindow, exWindowAllFail]).2.2 (by decide)⟩

/-! ### Screenshots are per window, not per capture (C7) -/

def c7Snap : PageSnapshot :=
  { url := "https://docs.google.com/document/d/x", title := "Doc", timestamp := 0,
    type := "google-docs", data := some { screenshot := .nullVal } }

def c7Tab (i : Int) : ChromeTab :=
  { id := some i, url := some "https://docs.google.com/document/d/x", active := true,
    extract := some c7Snap }

/-- Two windows, each whose active tab was captured with
`data.screenshot === null` and whose `captureVisibleTab` succeeds. -/
def c7Env : List ChromeWindow :=
  [{ id := 1, tabs := [c7Tab 1], shot := some "AAA" },
   { id := 2, tabs := [c7Tab 2], shot := some "BBB" }]

/-- C7 counterexample: the screenshot block sits inside the per-window
loop, so a capture over two windows with screenshot-eligible active tabs
persists two screenshot blobs, not at most one. -/
theorem C7_counterexample :
    ¬ ((captureWorkspace 100 c7Env).2.length ≤ 1) := by decide

/-- C7 (amended): each capture cycle persists at most one screenshot blob
per processed window — the screenshot attempt runs once per window, for its
captured active tab — so a capture over `W` windows persists at most `W`
blobs. -/
theorem C7_screenshot_per_window (ts2 : Int) (ws : List ChromeWindow) :
    (captureWorkspace ts2 ws).2.length ≤ ws.length := by
  simp only [captureWorkspace]
  induction ws with
  | nil => simp [captureWindows]
  | cons w rest ih =>
    by_cases h1 : w.tabs.isEmpty = true
    · simp only [captureWindows, h1, if_true]
      exact le_trans ih (by simp)
    · have h1' : w.tabs.isEmpty = false := by simpa using h1
      simp only [captureWindows, h1', Bool.false_eq_true, if_false]
      rw [List.length_append]
      have hw : (captureWindow ts2 w).2.length ≤ 1 := by
        simp only [captureWindow]
        exact windowShot_snd_length ts2 w (captureTabs (-1) [] w.tabs).2
      simp only [List.length_cons]
      omega

/-! ### Sentinel active tab and skipped screenshot (C10) -/

lemma captureTabs_aid_of_no_active :
    ∀ (l : List ChromeTab) (aid : Int) (acc : List TabSnapshot),
      (∀ t ∈ l, t.active = true → eligTab t = false ∨ t.extract = none) →
      (captureTabs aid acc l).1 = aid := by
  intro l
  induction l with
  | nil => intro aid acc _; rfl
  | cons tab rest ih =>
    intro aid acc h
    have hrest : ∀ t ∈ rest, t.active = true → eligTab t = false ∨ t.extract = none :=
      fun t ht => h t (List.mem_cons_of_mem _ ht)
    by_cases he : eligTab tab = true
    · cases hx : tab.extract with
      | some snap =>
        have hact : tab.active = false := by
          by_contra hcon
          have hat : tab.active = true := by simpa using hcon
          rcases h tab (List.mem_cons_self _ _) hat with h1 | h1
          · rw [he] at h1; cases h1
          · rw [hx] at h1; cases h1
        simp only [captureTabs, he, if_true]
        rw [hx]
        simp only [hact, Bool.false_eq_true, if_false]
        exact ih _ _ hrest
      | none =>
        simp only [captureTabs, he, if_true]
        rw [hx]
        exact ih _ _ hrest
    · have he2 : eligTab tab = false := by simpa using he
      simp only [captureTabs, he2, Bool.false_eq_true, if_false]
      exact ih _ _ hrest

lemma captureTabs_inactive :
    ∀ (l : List ChromeTab) (aid : Int) (acc : List TabSnapshot),
      (∀ t ∈ l, t.active = true → eligTab t = false ∨ t.extract = none) →
      (∀ t ∈ acc, t.isActive = false) →
      ∀ t ∈ (captureTabs aid acc l).2, t.isActive = false := by
  intro l
  induction l with
  | nil => intro aid acc _ hacc; exact hacc
  | cons tab rest ih =>
    intro aid acc h hacc
    have hrest : ∀ t ∈ rest, t.active = true → eligTab t = false ∨ t.extract = none :=
      fun t ht => h t (List.mem_cons_of_mem _ ht)
    by_cases he : eligTab tab = true
    · cases hx : tab.extract with
      | some snap =>
        have hact : tab.active = false := by
          by_contra hcon
          have hat : tab.active = true := by simpa using hcon
          rcases h tab (List.mem_cons_self _ _) hat with h1 | h1
          · rw [he] at h1; cases h1
          · rw [hx] at h1; cases h1
        simp only [captureTabs, he, if_true]
        rw [hx]
        apply ih _ _ hrest
        intro t ht
        rcases List.mem_append.mp ht with ht | ht
        · exact hacc t ht
        · rw [List.mem_singleton.mp ht]
          exact hact
      | none =>
        simp only [captureTabs, he, if_true]
        rw [hx]
        exact ih _ _ hrest hacc
    · have he2 : eligTab tab = false := by simpa using he
      simp only [captureTabs, he2, Bool.false_eq_true, if_false]
      exact ih _ _ hrest hacc

/-- C10: when every active tab of a window is skipped (missing id or
non-http URL) or fails extraction, the produced `WindowSnapshot` keeps the
sentinel `activeTabId = -1`, and no screenshot is attempted for that window,
whatever `captureVisibleTab` would return: the screenshot block only
considers tabs that were successfully captured. -/
theorem C10_failed_active_tab (ts2 : Int) (w : ChromeWindow)
    (h : ∀ t ∈ w.tabs, t.active = true → eligTab t = false ∨ t.extract = none) :
    (captureWindow ts2 w).1.activeTabId = -1 ∧
    ∀ img, (captureWindow ts2 { w with shot := img }).2 = [] := by
  have hfind : ((captureTabs (-1) [] w.tabs).2).find? (fun t => t.isActive) = none := by
    apply List.find?_eq_none.mpr
    intro x hx
    simp [captureTabs_inactive w.tabs (-1) [] h (by simp) x hx]
  constructor
  · exact captureTabs_aid_of_no_active w.tabs (-1) [] h
  · intro img
    simp only [captureWindow]
    have htabs : ({ w with shot := img } : ChromeWindow).tabs = w.tabs := rfl
    rw [htabs]
    simp [windowShot, hfind]

/-- A window whose only (active, eligible) tab fails extraction. -/
def c10Window : ChromeWindow :=
  { id := 3,
    tabs := [{ id := some 5, url := some "https://x.example", active := true, extract := none }],
    shot := some "IMG" }

/-- Concrete instance of `C10_failed_active_tab`. -/
theorem C10_failed_active_tab_witness :
    (captureWindow 0 c10Window).1.activeTabId = -1 ∧
    (captureWindow 0 { c10Window with shot := some "IMG" }).2 = [] := by
  obtain ⟨h1, h2⟩ := C10_failed_active_tab 0 c10Window (by decide)
  exact ⟨h1, h2 (some "IMG")⟩


/-! ## Submission and retry queue (`awsService.ts`) -/

inductive CaptureReason
  | idle
  | manual
  deriving DecidableEq

/-- One `failed_submissions` entry, as pushed by `storeFailedSubmission`. -/
structure FailedSubmission where
  id : String
  workspace : WorkspaceCapture
  userId : String
  captureReason : CaptureReason
  timestamp : Int
  retryCount : Int
  deriving DecidableEq

/-- JS `arr.slice(-n)`: the `n` most recent elements. -/
def takeLast {α : Type} (n : Nat) (l : List α) : List α := l.drop (l.length - n)

/-- Function `AWSAPIService.storeFailedSubmission`, given the stored list it read:
append the new record, keep only the last 10, write back. -/
def storeFailedSubmission (queue : List FailedSubmission) (e : FailedSubmission) :
    List FailedSubmission :=
  takeLast 10 (queue ++ [e])

/-- The record `storeFailedSubmission` pushes (fresh random id,
`retryCount: 0`). -/
def mkFailedSubmission (freshId : String) (w : WorkspaceCapture) (userId : String)
    (reason : CaptureReason) (now : Int) : FailedSubmission :=
  { id := freshId, workspace := w, userId := userId, captureReason := reason,
    timestamp := now, retryCount := 0 }

/-- Outcome of the `fetch` POST in `submitContext`: a thrown network error,
or an HTTP response with the given status. -/
inductive FetchOutcome
  | networkError
  | httpStatus (status : Int)
  deriving DecidableEq

/-- Test `Response.ok`: status in the 2xx range. -/
def responseOk (status : Int) : Bool := 200 ≤ status && status ≤ 299

/-- Function `AWSAPIService.submitContext` as a function of the persisted rate-limit
state, the persisted retry queue, the current time, the generated failed-
submission id and correlation id, and the fetch outcome.  Returns the
returned correlation id (or `none`), the new rate-limit state, and the new
retry queue.  Rate-limit denial returns `null` and touches nothing; a
2xx response updates the rate counters and returns the correlation id; a
network error or non-2xx status is caught internally (nothing is raised to
the caller), exactly one `FailedSubmission` is stored, and `null` is
returned. -/
def submitContext (rl : RateLimitState) (queue : List FailedSubmission) (now : Int)
    (freshId corrId : String) (f : FetchOutcome) (w : WorkspaceCapture)
    (userId : String) (reason : CaptureReason) :
    Option String × RateLimitState × List FailedSubmission :=
  if shouldSubmitContext now rl then
    match f with
    | .networkError =>
      (none, rl, storeFailedSubmission queue (mkFailedSubmission freshId w userId reason now))
    | .httpStatus st =>
      if responseOk st then (some corrId, updateRateLimitCounters now rl, queue)
      else
        (none, rl, storeFailedSubmission queue (mkFailedSubmission freshId w userId reason now))
  else (none, rl, queue)

lemma takeLast_length {α : Type} (n : Nat) (l : List α) :
    (takeLast n l).length = min l.length n := by
  simp [takeLast]
  omega

lemma mem_takeLast_concat {α : Type} {n : Nat} (hn : 0 < n) (l : List α) (e : α) :
    e ∈ takeLast n (l ++ [e]) := by
  unfold takeLast
  rw [List.length_append]
  rw [List.drop_append_of_le_length (by simp; omega)]
  simp

/-- C4: when the rate limiter admits the submission and the POST ends in a
network error or a non-2xx status, `submitContext` returns `null` (raising
nothing — it is a total function of the outcome), and the persisted queue
becomes the old queue with exactly one new `FailedSubmission` appended
(trimmed to the 10 most recent). -/
theorem C4_failed_submission_queued (rl : RateLimitState) (queue : List FailedSubmission)
    (now : Int) (freshId corrId : String) (f : FetchOutcome) (w : WorkspaceCapture)
    (userId : String) (reason : CaptureReason)
    (hrl : shouldSubmitContext now rl = true)
    (hf : f = .networkError ∨ ∃ st, f = .httpStatus st ∧ responseOk st = false) :
    (submitContext rl queue now freshId corrId f w userId reason).1 = none ∧
    (submitContext rl queue now freshId corrId f w userId reason).2.2 =
      storeFailedSubmission queue (mkFailedSubmission freshId w userId reason now) ∧
    mkFailedSubmission freshId w userId reason now ∈
      (submitContext rl queue now freshId corrId f w userId reason).2.2 ∧
    (submitContext rl queue now freshId corrId f w userId reason).2.2.length =
      min (queue.length + 1) 10 := by
  have hq : (submitContext rl queue now freshId corrId f w userId reason) =
      (none, rl, storeFailedSubmission queue (mkFailedSubmission freshId w userId reason now)) := by
    rcases hf with rfl | ⟨st, rfl, hst⟩
    · simp [submitContext, hrl]
    · simp [submitContext, hrl, hst]
  refine ⟨by rw [hq], by rw [hq], ?_, ?_⟩
  · rw [hq]
    exact mem_takeLast_concat (by norm_num) queue _
  · rw [hq]
    simp only [storeFailedSubmission, takeLast_length, List.length_append, List.length_cons,
      List.length_nil]

def exWorkspace : WorkspaceCapture := { timestamp := 0, windows := [] }

/-- Concrete instance of `C4_failed_submission_queued`: a 500 response on
an admitted submission yields `null` and one queued entry. -/
theorem C4_failed_submission_queued_witness :
    (submitContext rlInit [] 20000 "f1" "c1" (.httpStatus 500) exWorkspace "user" .idle).1
      = none ∧
    (submitContext rlInit [] 20000 "f1" "c1" (.httpStatus 500) exWorkspace "user" .idle).2.2.length
      = min (0 + 1) 10 := by
  have h := C4_failed_submission_queued rlInit [] 20000 "f1" "c1" (.httpStatus 500)
    exWorkspace "user" .idle (by decide) (Or.inr ⟨500, rfl, by decide⟩)
  exact ⟨h.1, by simpa using h.2.2.2⟩

/-! ### Retry queue drain (`retryFailedSubmissions`) -/

/-- The per-entry result of the `submitContext` call made by the drain:
rate-limit denial (null, nothing stored), fetch failure (null, one fresh
record pushed to the live store), or success with a correlation id. -/
inductive SubmitOutcome
  | denied
  | fetchFailed
  | succeeded (corrId : String)
  deriving DecidableEq

def isSucceeded : SubmitOutcome → Bool
  | .succeeded _ => true
  | _ => false

/-- The loop of `retryFailedSubmissions`: iterates over the in-memory list
read at entry, threading the live stored list.  A non-null result collects
the entry's id into `successfulRetries`; a fetch failure appends (via the
`storeFailedSubmission` call inside `submitContext`) a fresh record
`retryRecord e` to the live store; a denial touches nothing. -/
def drainGo (outcome : FailedSubmission → SubmitOutcome)
    (retryRecord : FailedSubmission → FailedSubmission) :
    List FailedSubmission → List FailedSubmission → List String →
      List FailedSubmission × List String
  | store, [], acc => (store, acc)
  | store, e :: rest, acc =>
    match outcome e with
    | .succeeded _ => drainGo outcome retryRecord store rest (acc ++ [e.id])
    | .fetchFailed =>
      drainGo outcome retryRecord (storeFailedSubmission store (retryRecord e)) rest acc
    | .denied => drainGo outcome retryRecord store rest acc

/-- Function `AWSAPIService.retryFailedSubmissions`: read the stored list; return
with no write when it is empty; otherwise resubmit each entry in order and
finally overwrite storage with the read list filtered by the collected
successful ids (clobbering whatever failed resubmissions pushed during the
loop). -/
def retryFailedSubmissions (outcome : FailedSubmission → SubmitOutcome)
    (retryRecord : FailedSubmission → FailedSubmission)
    (storage : List FailedSubmission) : List FailedSubmission :=
  let failedSubmissions := storage
  if failedSubmissions.length = 0 then storage
  else
    let r := drainGo outcome retryRecord storage failedSubmissions []
    failedSubmissions.filter (fun e => !(r.2.contains e.id))

/-- C5: the persisted retry queue is bounded: a push yields at most 10
entries for any stored list; pushing onto a full queue of 10 keeps exactly
the 10 most recent records, evicting the oldest; and the only other write
to the queue (the drain's final filter) never grows it. -/
theorem C5_retry_queue_bounded (queue : List FailedSubmission) (e : FailedSubmission) :
    (storeFailedSubmission queue e).length ≤ 10 ∧
    (queue.length = 10 → storeFailedSubmission queue e = queue.drop 1 ++ [e]) ∧
    (∀ (outcome : FailedSubmission → SubmitOutcome)
       (retryRecord : FailedSubmission → FailedSubmission),
       (retryFailedSubmissions outcome retryRecord queue).length ≤ queue.length) := by
  refine ⟨?_, ?_, ?_⟩
  · rw [storeFailedSubmission, takeLast_length]
    omega
  · intro h10
    rw [storeFailedSubmission, takeLast, List.length_append, h10]
    simp only [List.length_singleton]
    rw [List.drop_append_of_le_length (by omega)]
  · intro outcome retryRecord
    by_cases h : queue.length = 0
    · simp [retryFailedSubmissions, h]
    · simp only [retryFailedSubmissions, h, if_false]
      exact List.length_filter_le _ _

/-- Concrete instance of `C5_retry_queue_bounded`: pushing an 11th entry
onto a full queue of 10 evicts the oldest. -/
theorem C5_retry_queue_bounded_witness :
    (storeFailedSubmission
        (List.replicate 10 (mkFailedSubmission "old" exWorkspace "u" .idle 0))
        (mkFailedSubmission "new" exWorkspace "u" .idle 1)).length ≤ 10 ∧
    storeFailedSubmission
        (List.replicate 10 (mkFailedSubmission "old" exWorkspace "u" .idle 0))
        (mkFailedSubmission "new" exWorkspace "u" .idle 1) =
      (List.replicate 10 (mkFailedSubmission "old" exWorkspace "u" .idle 0)).drop 1 ++
        [mkFailedSubmission "new" exWorkspace "u" .idle 1] := by
  have h := C5_retry_queue_bounded
    (List.replicate 10 (mkFailedSubmission "old" exWorkspace "u" .idle 0))
    (mkFailedSubmission "new" exWorkspace "u" .idle 1)
  exact ⟨h.1, h.2.1 (by decide)⟩

lemma drainGo_ids (outcome : FailedSubmission → SubmitOutcome)
    (retryRecord : FailedSubmission → FailedSubmission) :
    ∀ (q : List FailedSubmission) (store : List FailedSubmission) (acc : List String),
      (drainGo outcome retryRecord store q acc).2 =
        acc ++ (q.filter (fun e => isSucceeded (outcome e))).map (fun e => e.id) := by
  intro q
  induction q with
  | nil => intro store acc; simp [drainGo]
  | cons e rest ih =>
    intro store acc
    cases ho : outcome e with
    | succeeded c =>
      simp only [drainGo, ho]
      rw [ih]
      simp [List.filter_cons, ho, isSucceeded]
    | fetchFailed =>
      simp only [drainGo, ho]
      rw [ih]
      simp [List.filter_cons, ho, isSucceeded]
    | denied =>
      simp only [drainGo, ho]
      rw [ih]
      simp [List.filter_cons, ho, isSucceeded]

/-- C6: after a drain, the persisted queue is exactly the read list minus
the entries whose resubmission returned a non-null correlation id, in the
original order; every surviving entry is the original record, so no
`retryCount` is incremented.  (Requires the stored ids to be distinct, as
the random-suffix generation ensures: removal is by collected id.) -/
theorem C6_drain_removes_successes (outcome : FailedSubmission → SubmitOutcome)
    (retryRecord : FailedSubmission → FailedSubmission) (storage : List FailedSubmission)
    (hids : (storage.map FailedSubmission.id).Nodup) :
    retryFailedSubmissions outcome retryRecord storage =
      storage.filter (fun e => !(isSucceeded (outcome e))) ∧
    ∀ e ∈ retryFailedSubmissions outcome retryRecord storage, e ∈ storage := by
  have hmain : retryFailedSubmissions outcome retryRecord storage =
      storage.filter (fun e => !(isSucceeded (outcome e))) := by
    by_cases h : storage.length = 0
    · have : storage = [] := List.length_eq_zero.mp h
      subst this
      simp [retryFailedSubmissions]
    · simp only [retryFailedSubmissions, h, if_false]
      have hids2 := drainGo_ids outcome retryRecord storage storage []
      rw [List.nil_append] at hids2
      apply List.filter_congr
      intro e he
      simp only [hids2]
      by_cases hs : isSucceeded (outcome e) = true
      · have hmem : e.id ∈ (storage.filter
            (fun x => isSucceeded (outcome x))).map (fun x => x.id) :=
          List.mem_map.mpr ⟨e, List.mem_filter.mpr ⟨he, hs⟩, rfl⟩
        have hc : ((storage.filter (fun x => isSucceeded (outcome x))).map
            (fun x => x.id)).contains e.id = true := by
          simpa using hmem
        rw [hc, hs]
      · have hs2 : isSucceeded (outcome e) = false := by simpa using hs
        have hnm : e.id ∉ (storage.filter
            (fun x => isSucceeded (outcome x))).map (fun x => x.id) := by
          intro hmem
          obtain ⟨e2, he2, hid⟩ := List.mem_map.mp hmem
          have he2s := List.mem_of_mem_filter he2
          have heq : e2 = e := List.inj_on_of_nodup_map hids he2s he hid
          subst heq
          rw [List.mem_filter] at he2
          rw [he2.2] at hs2
          cases hs2
        have hc : ((storage.filter (fun x => isSucceeded (outcome x))).map
            (fun x => x.id)).contains e.id = false := by
          simpa using hnm
        rw [hc, hs2]
  refine ⟨hmain, ?_⟩
  intro e he
  rw [hmain] at he
  exact List.mem_of_mem_filter he

def exEntryA : FailedSubmission := mkFailedSubmission "fa" exWorkspace "u" .idle 0

def exEntryB : FailedSubmission := mkFailedSubmission "fb" exWorkspace "u" .manual 1

/-- Drain outcome used in the concrete scenario: entry `fa` resubmits
successfully, everything else fails in transport. -/
def exOutcome (e : FailedSubmission) : SubmitOutcome :=
  if e.id = "fa" then .succeeded "c-9" else .fetchFailed

/-- Concrete instance of `C6_drain_removes_successes`: of two queued
entries the successfully resubmitted one is removed and the failed one
stays, unchanged. -/
theorem C6_drain_removes_successes_witness :
    retryFailedSubmissions exOutcome id [exEntryA, exEntryB] = [exEntryB] := by
  have h := (C6_drain_removes_successes exOutcome id [exEntryA, exEntryB] (by decide)).1
  rw [h]
  decide


/-! ## Expiration sweep (`background.ts`, `cleanupExpiredSnapshots`) -/

/-- A persisted `chrome.storage.local` value: a workspace snapshot record
or a string blob (screenshot data URL or other). -/
inductive StoredValue
  | wsVal (w : WorkspaceCapture)
  | strVal (s : String)
  deriving DecidableEq

/-- The persisted key-value store (keys of a JS object are unique). -/
abbrev Storage := List (String × StoredValue)

/-- Constant `DEFAULT_EXPIRATION.retentionMs` (7 days). -/
def retentionMs : Int := 7 * 24 * 60 * 60 * 1000

/-- The screenshot keys referenced by a snapshot's tabs, in traversal
order: `tab.snapshot.data?.screenshot && toBeDeleted.push(...)` pushes only
truthy values (field present, non-null, nonempty string). -/
def screenshotRefs (w : WorkspaceCapture) : List String :=
  w.windows.flatMap (fun win => win.tabs.filterMap (fun t =>
    match t.snapshot.data with
    | some d =>
      match d.screenshot with
      | .key s => if s = "" then none else some s
      | _ => none
    | none => none))

/-- The timestamp matched by `key.match(/img_(\d+)_/)`: digits after a
leading `img_`, followed by `_`.  Only used by the sweep's nested `img_`
branch, which is unreachable. -/
def imgKeyTimestamp (k : String) : Option Int :=
  let rest := k.drop 4
  let digits := rest.takeWhile Char.isDigit
  if jsStartsWith k "img_" && digits.length != 0 &&
      jsStartsWith (rest.drop digits.length) "_" then
    (digits.toNat?).map (fun n => (n : Int))
  else none

/-- One loop-body iteration of `cleanupExpiredSnapshots`: the keys this
entry contributes to `toBeDeleted`.  Only `workspace_`-keys are examined; a
value that is not a snapshot record has an undefined `timestamp`, which
compares false; the nested `else if (key.startsWith("img_"))` branch is
unreachable because a key cannot start with both prefixes. -/
def expiredKeysFor (cutoff : Int) (k : String) (v : StoredValue) : List String :=
  if jsStartsWith k "workspace_" then
    match v with
    | .wsVal w =>
      if w.timestamp < cutoff then k :: screenshotRefs w
      else if jsStartsWith k "img_" then
        match imgKeyTimestamp k with
        | some t => if t < cutoff then [k] else []
        | none => []
      else []
    | .strVal _ => []
  else []

/-- The complete `toBeDeleted` list of one sweep at time `now`
(`cutoff = Date.now() - DEFAULT_EXPIRATION.retentionMs`). -/
def cleanupDeletedKeys (now : Int) (st : Storage) : List String :=
  st.flatMap (fun e => expiredKeysFor (now - retentionMs) e.1 e.2)

/-- Function `cleanupExpiredSnapshots`: one batched
`chrome.storage.local.remove(toBeDeleted)` over the scanned keys. -/
def cleanupExpiredSnapshots (now : Int) (st : Storage) : Storage :=
  st.filter (fun e => !((cleanupDeletedKeys now st).contains e.1))

lemma not_workspace_and_img {k : String} (h1 : jsStartsWith k "workspace_" = true) :
    jsStartsWith k "img_" = false := by
  by_contra hc
  have h2 : jsStartsWith k "img_" = true := by simpa using hc
  rw [jsStartsWith, List.isPrefixOf_iff_prefix] at h1 h2
  rcases List.prefix_or_prefix_of_prefix h1 h2 with h | h
  · exact absurd h (by decide)
  · exact absurd h (by decide)

lemma mem_expiredKeysFor {cutoff : Int} {k k0 : String} {v : StoredValue}
    (h : k0 ∈ expiredKeysFor cutoff k v) :
    jsStartsWith k "workspace_" = true ∧
    ∃ w, v = StoredValue.wsVal w ∧ w.timestamp < cutoff ∧
      (k0 = k ∨ k0 ∈ screenshotRefs w) := by
  by_cases hp : jsStartsWith k "workspace_" = true
  · refine ⟨hp, ?_⟩
    cases v with
    | strVal s => simp [expiredKeysFor, hp] at h
    | wsVal w =>
      by_cases he : w.timestamp < cutoff
      · refine ⟨w, rfl, he, ?_⟩
        simp only [expiredKeysFor, hp, if_true, he] at h
        simpa using h
      · exfalso
        simp only [expiredKeysFor, hp, if_true, he, if_false,
          not_workspace_and_img hp, Bool.false_eq_true] at h
        simp at h
  · have hp2 : jsStartsWith k "workspace_" = false := by simpa using hp
    simp [expiredKeysFor, hp2] at h

lemma mem_cleanupDeletedKeys {now : Int} {st : Storage} {k0 : String} :
    k0 ∈ cleanupDeletedKeys now st ↔
      ∃ k w, (k, StoredValue.wsVal w) ∈ st ∧ jsStartsWith k "workspace_" = true ∧
        w.timestamp < now - retentionMs ∧ (k0 = k ∨ k0 ∈ screenshotRefs w) := by
  constructor
  · intro hm
    rw [cleanupDeletedKeys, List.mem_flatMap] at hm
    obtain ⟨e, he, hk⟩ := hm
    obtain ⟨hp, w, hv, hexp, hor⟩ := mem_expiredKeysFor hk
    refine ⟨e.1, w, ?_, hp, hexp, hor⟩
    have : e = (e.1, StoredValue.wsVal w) := by
      cases e
      simp at hv ⊢
      exact hv
    rw [← this]
    exact he
  · rintro ⟨k, w, hmem, hp, hexp, hor⟩
    rw [cleanupDeletedKeys, List.mem_flatMap]
    refine ⟨(k, StoredValue.wsVal w), hmem, ?_⟩
    simp only [expiredKeysFor, hp, if_true, hexp]
    rcases hor with rfl | hr
    · exact List.mem_cons_self _ _
    · exact List.mem_cons_of_mem _ hr

/-- Non-interference side condition for the retention half of C8: the key
`k0` is neither the key of an expired snapshot entry nor referenced as a
screenshot key by any expired snapshot in `st`. -/
def safeFromSweep (cutoff : Int) (k0 : String) (p : String × StoredValue) : Bool :=
  match p.2 with
  | .wsVal w2 =>
    if jsStartsWith p.1 "workspace_" && decide (w2.timestamp < cutoff) then
      !(k0 == p.1) && !((screenshotRefs w2).contains k0)
    else true
  | .strVal _ => true

lemma not_mem_deleted_of_safe {now : Int} {st : Storage} {k0 : String}
    (hsafe : ∀ p ∈ st, safeFromSweep (now - retentionMs) k0 p = true) :
    k0 ∉ cleanupDeletedKeys now st := by
  intro hmem
  obtain ⟨k, w, hm, hp, hexp, hor⟩ := mem_cleanupDeletedKeys.mp hmem
  have hs := hsafe (k, StoredValue.wsVal w) hm
  simp only [safeFromSweep] at hs
  rw [hp, decide_eq_true hexp] at hs
  simp at hs
  rcases hor with rfl | hr
  · exact hs.1 rfl
  · exact hs.2 hr

/-- C8: the sweep at time `now` with the default 7-day retention marks, in
its single batched remove, every `workspace_` snapshot entry with
`timestamp < now − 7d` together with every screenshot key its tabs
reference; and a snapshot entry with `timestamp ≥ now − 7d` survives the
sweep along with its screenshot-key entries, provided (as for distinct
captures) no expired snapshot shares or references those keys. -/
theorem C8_expiration_sweep (now : Int) (st : Storage) (k : String) (w : WorkspaceCapture)
    (hmem : (k, StoredValue.wsVal w) ∈ st)
    (hk : jsStartsWith k "workspace_" = true) :
    (w.timestamp < now - retentionMs →
      k ∈ cleanupDeletedKeys now st ∧
      ∀ s ∈ screenshotRefs w, s ∈ cleanupDeletedKeys now st) ∧
    ((∀ p ∈ st, safeFromSweep (now - retentionMs) k p = true) →
      (k, StoredValue.wsVal w) ∈ cleanupExpiredSnapshots now st) ∧
    (∀ s v2, s ∈ screenshotRefs w → (s, v2) ∈ st →
      (∀ p ∈ st, safeFromSweep (now - retentionMs) s p = true) →
      (s, v2) ∈ cleanupExpiredSnapshots now st) := by
  refine ⟨?_, ?_, ?_⟩
  · intro hexp
    constructor
    · exact mem_cleanupDeletedKeys.mpr ⟨k, w, hmem, hk, hexp, Or.inl rfl⟩
    · intro s hs
      exact mem_cleanupDeletedKeys.mpr ⟨k, w, hmem, hk, hexp, Or.inr hs⟩
  · intro hsafe
    rw [cleanupExpiredSnapshots, List.mem_filter]
    refine ⟨hmem, ?_⟩
    have := not_mem_deleted_of_safe hsafe
    simpa using this
  · intro s v2 _ hsv hsafe
    rw [cleanupExpiredSnapshots, List.mem_filter]
    refine ⟨hsv, ?_⟩
    have := not_mem_deleted_of_safe hsafe
    simpa using this

def c8Day : Int := 86400000

def c8Now : Int := 1000000000000

/-- A one-window, one-tab snapshot referencing one screenshot key. -/
def c8Snap (t : Int) (ref : String) : WorkspaceCapture :=
  { timestamp := t,
    windows := [{ windowId := 1,
                  activeTabId := 1,
                  tabs := [{ tabId := 1,
                             isActive := true,
                             snapshot := { url := "https://a.example",
                                           title := "t",
                                           timestamp := t,
                                           type := "google-docs",
                                           data := some { screenshot := .key ref } } }] }] }

def c8Old : WorkspaceCapture := c8Snap (c8Now - 8 * c8Day) "img_100_1"

def c8New : WorkspaceCapture := c8Snap (c8Now - 6 * c8Day) "img_200_1"

def c8Storage : Storage :=
  [("workspace_100", .wsVal c8Old),
   ("workspace_200", .wsVal c8New),
   ("img_100_1", .strVal "D8"),
   ("img_200_1", .strVal "D6")]

/-- Concrete instance of `C8_expiration_sweep`: a snapshot timestamped 8
days ago is marked for deletion together with its screenshot key, while one
timestamped 6 days ago survives the sweep along with its screenshot key. -/
theorem C8_expiration_sweep_witness :
    "workspace_100" ∈ cleanupDeletedKeys c8Now c8Storage ∧
    "img_100_1" ∈ cleanupDeletedKeys c8Now c8Storage ∧
    ("workspace_200", StoredValue.wsVal c8New) ∈ cleanupExpiredSnapshots c8Now c8Storage ∧
    ("img_200_1", StoredValue.strVal "D6") ∈ cleanupExpiredSnapshots c8Now c8Storage := by
  have h8 := C8_expiration_sweep c8Now c8Storage "workspace_100" c8Old (by decide) (by decide)
  have h6 := C8_expiration_sweep c8Now c8Storage "workspace_200" c8New (by decide) (by decide)
  exact ⟨(h8.1 (by decide)).1,
    (h8.1 (by decide)).2 "img_100_1" (by decide),
    h6.2.1 (by decide),
    h6.2.2 "img_200_1" (StoredValue.strVal "D6") (by decide) (by decide) (by decide)⟩


/-! ## Insight cache fallback (`awsService.ts`, `getInsights` catch path) -/

/-- An AI insight record as assembled by `getInsights` and stored under
`cached_insights`.  The cache path stores and returns these records
opaquely; the fields carried here are the ones other parts of the pipeline
read. -/
structure AIInsight where
  id : String
  title : String
  description : String
  priority : String
  deriving DecidableEq

/-- The fallback path of `getInsights` when the live fetch fails: return
the cached insights when the `cached_insights` key is present (a stored
array is truthy even when empty) and `Date.now() - insights_cached_at <
3600000`; otherwise return an empty list.  A missing `insights_cached_at`
makes the age test `NaN < 3600000`, which is false. -/
def getInsightsFallback (cachedInsights : Option (List AIInsight))
    (cachedAt : Option Int) (now : Int) : List AIInsight :=
  match cachedInsights with
  | some l =>
    match cachedAt with
    | some t => if now - t < 3600000 then l else []
    | none => []
  | none => []

def c9Insight : AIInsight := { id := "i1", title := "T", description := "D", priority := "high" }

/-- C9 counterexample: a cache whose age is exactly one hour is "≤ 1h old",
yet the fallback returns the empty sequence, not the cached insights — the
code's freshness test is strict (`< 3600000`). -/
theorem C9_counterexample :
    (3600000 : Int) - 0 ≤ 3600000 ∧
    getInsightsFallback (some [c9Insight]) (some 0) 3600000 = [] ∧
    [c9Insight] ≠ ([] : List AIInsight) := by
  refine ⟨by norm_num, rfl, by decide⟩

/-- C9 (amended): when the live insights fetch fails, the fallback returns
the cached insights exactly when the cache is present and strictly less
than one hour old (`now − cachedAt < 3600000 ms`), and returns an empty
sequence when the cache is absent, its timestamp is absent, or its age is
at least one hour. -/
theorem C9_insights_fallback (l : List AIInsight) (t now : Int) :
    (now - t < 3600000 → getInsightsFallback (some l) (some t) now = l) ∧
    (3600000 ≤ now - t → getInsightsFallback (some l) (some t) now = []) ∧
    (∀ ca : Option Int, getInsightsFallback none ca now = []) ∧
    getInsightsFallback (some l) none now = [] := by
  refine ⟨?_, ?_, ?_, rfl⟩
  · intro h
    simp [getInsightsFallback, h]
  · intro h
    simp only [getInsightsFallback]
    rw [if_neg (by omega)]
  · intro ca
    cases ca <;> rfl

/-- Concrete instance of `C9_insights_fallback`: one millisecond under the
hour returns the cache, the exact hour mark returns nothing. -/
theorem C9_insights_fallback_witness :
    getInsightsFallback (some [c9Insight]) (some 0) 3599999 = [c9Insight] ∧
    getInsightsFallback (some [c9Insight]) (some 0) 3600000 = [] :=
  ⟨(C9_insights_fallback [c9Insight] 0 3599999).1 (by norm_num),
   (C9_insights_fallback [c9Insight] 0 3600000).2.1 (by norm_num)⟩

end Noro
